import Mathlib

/-!
Shallow embedding of the per-device dispatch core of serial-server
(package `listener`: `RequestCache`, `PendingRequest`, `WriteQueue`).

Conventions:
* Wall-clock instants and durations are `Int` nanoseconds (Go `time.Time` /
  `time.Duration`).  A Go zero `time.Time` (e.g. an unset `SentAt`) is
  modelled as `Option Int` being `none`.
* Go `uint64` values (hashes) are `Nat` reduced mod `2 ^ 64` at each
  multiplication, exactly where Go overflow can occur.
* Go maps are association lists with unique keys; `mapInsert` overwrites.
  Go map iteration order is unspecified; the list order fixes one
  determinization (no claim depends on it).
* Each locked section of the Go code becomes one atomic function on the
  engine state; concurrency is an arbitrary interleaving of these steps.
-/

namespace SerialServer

/-- Go `time.Millisecond` in nanoseconds. -/
def millisecond : Int := 1000000

/-- Go `time.Second` in nanoseconds. -/
def second : Int := 1000000000

/-- Source `requestTimeout = 3 * time.Second`. -/
def requestTimeout : Int := 3 * second

/-- Source `defaultCacheTTL = 5 * time.Second`. -/
def defaultCacheTTL : Int := 5 * second

/-- The `150 * time.Millisecond` late-response drop window used by
`sendToSerial` and `WriteQueue.CleanupExpired`. -/
def dropWindow : Int := 150 * millisecond

section MapHelpers

variable {K V : Type} [DecidableEq K]

/-- Lookup in an association-list map (Go `m[k]` with `found`). -/
def mapLookup : List (K × V) → K → Option V
  | [], _ => none
  | (k', v) :: rest, k => if k' = k then some v else mapLookup rest k

/-- Go `delete(m, k)`. -/
def mapErase (m : List (K × V)) (k : K) : List (K × V) :=
  m.filter (fun p => decide (p.1 ≠ k))

/-- Go `m[k] = v` (overwrite). -/
def mapInsert (m : List (K × V)) (k : K) (v : V) : List (K × V) :=
  (k, v) :: mapErase m k

theorem mapLookup_insert (m : List (K × V)) (k : K) (v : V) :
    mapLookup (mapInsert m k v) k = some v := by
  simp [mapInsert, mapLookup]

theorem mapLookup_erase (m : List (K × V)) (k : K) :
    mapLookup (mapErase m k) k = none := by
  induction m with
  | nil => rfl
  | cons p rest ih =>
    by_cases h : p.1 = k
    · simpa [mapErase, List.filter, h] using ih
    · simpa [mapErase, List.filter, h, mapLookup] using ih

theorem mapLookup_erase_none (m : List (K × V)) (k k' : K)
    (h : mapLookup m k = none) : mapLookup (mapErase m k') k = none := by
  induction m with
  | nil => rfl
  | cons p rest ih =>
    by_cases hk : p.1 = k
    · simp [mapLookup, hk] at h
    · simp only [mapLookup, hk, if_neg] at h
      by_cases h' : p.1 = k'
      · simpa [mapErase, List.filter, h'] using ih h
      · simpa [mapErase, List.filter, h', mapLookup, hk] using ih h

end MapHelpers

/-! ### FNV-1a fingerprint (`hashData`) -/

/-- FNV-1a 64-bit offset basis (from `hashData`). -/
def offset64 : Nat := 14695981039346656037

/-- FNV-1a 64-bit prime (from `hashData`). -/
def prime64 : Nat := 1099511628211

/-- One loop iteration of `hashData`: `hash ^= uint64(b); hash *= prime64`
with `uint64` wraparound. -/
def hashByte (h b : Nat) : Nat := ((h ^^^ b) * prime64) % 2 ^ 64

/-- Embeds `hashData`: computes the FNV-1a 64-bit hash of the payload bytes. -/
def hashData (data : List Nat) : Nat := data.foldl hashByte offset64

/-! ### RequestCache -/

/-- Embeds `cacheEntry`: a cached response with its expiration instant. -/
structure cacheEntry where
  data : List Nat
  expireAt : Int
deriving DecidableEq, Repr

/-- Embeds `RequestCache`: hash → entry (the Go map, keys unique). -/
abbrev RequestCache := List (Nat × cacheEntry)

/-- Embeds `RequestCache.Get`: a found entry is a hit unless `time.Now()` is
strictly after `expireAt`.  `now` stands for the internal `time.Now()`. -/
def RequestCache.Get (c : RequestCache) (now : Int) (hash : Nat) :
    Option (List Nat) :=
  match mapLookup c hash with
  | none => none
  | some entry => if now > entry.expireAt then none else some entry.data

/-- Embeds `RequestCache.SetWithTTL`: store with `expireAt = time.Now().Add(ttl)`. -/
def RequestCache.SetWithTTL (c : RequestCache) (now : Int) (hash : Nat)
    (data : List Nat) (ttl : Int) : RequestCache :=
  mapInsert c hash ⟨data, now + ttl⟩

/-- Embeds `RequestCache.Set`: store with the default TTL. -/
def RequestCache.Set (c : RequestCache) (now : Int) (hash : Nat)
    (data : List Nat) : RequestCache :=
  c.SetWithTTL now hash data defaultCacheTTL

/-- Embeds `RequestCache.CleanupExpired`: delete every entry with
`now.After(entry.expireAt)`. -/
def RequestCache.CleanupExpired (c : RequestCache) (now : Int) : RequestCache :=
  c.filter (fun p => decide (¬ now > p.2.expireAt))

/-! ### PendingRequest and its single-shot completion sink -/

/-- Embeds `PendingRequest` (the completion sink `ResponseCh`/`done` is modelled
separately by `Sink`; `SentAt.IsZero()` is `sentAt = none`). -/
structure PendingRequest where
  id : Nat
  clientID : String
  dataHash : Nat
  request : List Nat
  timestamp : Int
  sentAt : Option Int
deriving DecidableEq, Repr

/-- What a completion sink can deliver: response bytes, or the channel
closed with no data. -/
inductive Outcome where
  | bytes (data : List Nat)
  | empty
deriving DecidableEq, Repr

/-- The completion sink of one request: the atomic `done` flag plus the
deliveries that went out on `ResponseCh`. -/
structure Sink where
  done : Bool
  delivered : List Outcome
deriving DecidableEq, Repr

/-- A sink before any finisher ran. -/
def Sink.fresh : Sink := ⟨false, []⟩

/-- An invocation of one of the two finishers. -/
inductive FinishEvent where
  | withResponse (data : List Nat)
  | noResponse
deriving DecidableEq, Repr

/-- The outcome a finisher invocation carries. -/
def FinishEvent.outcome : FinishEvent → Outcome
  | .withResponse d => .bytes d
  | .noResponse => .empty

/-- Embeds `finishWithResponse` / `finishNoResponse`: `done.Swap(true)` returns the
old flag; if it was already set the call is a no-op, otherwise the outcome
is delivered and the channel closed. -/
def applyFinish (s : Sink) : FinishEvent → Sink
  | .withResponse d =>
    if s.done then s else ⟨true, s.delivered ++ [Outcome.bytes d]⟩
  | .noResponse =>
    if s.done then s else ⟨true, s.delivered ++ [Outcome.empty]⟩

/-- One interleaving of concurrent finisher invocations on one sink. -/
def runFinishers (s : Sink) (evs : List FinishEvent) : Sink :=
  evs.foldl applyFinish s

/-! ### WriteQueue -/

/-- The `respState` machine: `respStateIdle` / `respStateSending` /
`respStateWaiting`. -/
inductive RespState where
  | idle
  | sending
  | waiting
deriving DecidableEq, Repr

/-- The mutable state of a `WriteQueue` (everything the engine mutex plus
the atomics protect; the timers and the serial handle carry no state the
claims depend on). -/
structure WriteQueue where
  cache : RequestCache
  pending : List PendingRequest
  nextReqID : Nat
  clientIndex : List (String × Int)
  inflight : List Nat
  waiting : List (Nat × List PendingRequest)
  respBuf : List Nat
  currentReqID : Nat
  respState : RespState
  dropUntil : Int
deriving DecidableEq, Repr

/-- Embeds `NewWriteQueue`: everything empty, state idle. -/
def NewWriteQueue : WriteQueue :=
  { cache := [], pending := [], nextReqID := 0, clientIndex := [],
    inflight := [], waiting := [], respBuf := [], currentReqID := 0,
    respState := RespState.idle, dropUntil := 0 }

/-- What `Send` hands back to the caller. -/
inductive SendResult where
  | resolved (data : List Nat)
  | attached
  | enqueued (id : Nat)
deriving DecidableEq, Repr

/-- The intake branch a `Send` call took. -/
inductive SendKind where
  | hit
  | attached
  | enqueued
deriving DecidableEq, Repr

/-- Branch classifier for a `Send` result. -/
def SendResult.kind : SendResult → SendKind
  | .resolved _ => .hit
  | .attached => .attached
  | .enqueued _ => .enqueued

/-- The bytes of an already-resolved `Send` result, if any. -/
def SendResult.resolvedBytes : SendResult → Option (List Nat)
  | .resolved d => some d
  | _ => none

/-- Embeds `WriteQueue.Send`: cache check, double cache check under the lock,
dedup attach, or enqueue as a fresh main.  Returns the new state, the
result handed to the client, and whether a `sendToSerial` goroutine was
scheduled (`len(q.pending) == 1` in the enqueue branch). -/
def WriteQueue.Send (q : WriteQueue) (now : Int) (clientID : String)
    (data : List Nat) : WriteQueue × SendResult × Bool :=
  let hash := hashData data
  match q.cache.Get now hash with
  | some cached => (q, SendResult.resolved cached, false)
  | none =>
    -- Double check cache after acquiring lock (same state in the atomic
    -- embedding, so the same lookup).
    match q.cache.Get now hash with
    | some cached => (q, SendResult.resolved cached, false)
    | none =>
      if hash ∈ q.inflight then
        let req : PendingRequest :=
          { id := 0, clientID := clientID, dataHash := hash, request := data,
            timestamp := now, sentAt := none }
        ({ q with
            waiting :=
              mapInsert q.waiting hash
                ((mapLookup q.waiting hash).getD [] ++ [req]),
            clientIndex := mapInsert q.clientIndex clientID (-1) },
          SendResult.attached, false)
      else
        let rid := q.nextReqID + 1
        let req : PendingRequest :=
          { id := rid, clientID := clientID, dataHash := hash, request := data,
            timestamp := now, sentAt := none }
        let pending' := q.pending ++ [req]
        ({ q with
            nextReqID := rid,
            inflight := hash :: q.inflight,
            pending := pending',
            clientIndex :=
              mapInsert q.clientIndex clientID ((pending'.length : Int) - 1) },
          SendResult.enqueued rid, pending'.length == 1)

/-- First locked section of `sendToSerial` (before the device write):
bail out unless the candidate is still the head and the state is idle,
otherwise mark `sending`.  The returned flag says whether the device write
goes ahead.  (A nil serial handle makes the whole dispatch an immediate
no-op in the source and is not modelled.)  Go compares the head to the
candidate by pointer identity; mains are pairwise distinct values (fresh
ids from the monotone counter), so value equality is the same test. -/
def WriteQueue.sendStart (q : WriteQueue) (req : PendingRequest) :
    WriteQueue × Bool :=
  match q.pending with
  | [] => (q, false)
  | h :: _ =>
    if h = req then
      if q.respState = RespState.idle then
        ({ q with respState := RespState.sending }, true)
      else (q, false)
    else (q, false)

/-- Second locked section of `sendToSerial` (after the device write
returned `writeErr`): re-verify the head, then either the write-failure
cleanup or the success transition to `waiting`.  Returns the state, the
requests finished with no response, and the next head scheduled (if any). -/
def WriteQueue.sendFinish (q : WriteQueue) (now : Int) (req : PendingRequest)
    (writeErr : Bool) : WriteQueue × List PendingRequest × Option PendingRequest :=
  match q.pending with
  | [] => (q, [], none)
  | h :: rest =>
    if h = req then
      if writeErr then
        let waitingList := (mapLookup q.waiting req.dataHash).getD []
        let q' : WriteQueue :=
          { q with
            pending := rest,
            clientIndex :=
              waitingList.foldl (fun m w => mapErase m w.clientID)
                (mapErase q.clientIndex req.clientID),
            inflight := q.inflight.filter (fun x => decide (x ≠ req.dataHash)),
            waiting := mapErase q.waiting req.dataHash,
            currentReqID := 0,
            respState := RespState.idle,
            dropUntil := now + dropWindow }
        (q', req :: waitingList, rest.head?)
      else
        ({ q with
            pending := { h with sentAt := some now } :: rest,
            currentReqID := req.id,
            respState := RespState.waiting }, [], none)
    else (q, [], none)

/-- Embeds `sendToSerial` as one uninterrupted dispatch: the pre-write check, the
single device write (emitted in the middle component when it happens), and
the post-write handling. -/
def WriteQueue.sendToSerial (q : WriteQueue) (now : Int) (req : PendingRequest)
    (writeErr : Bool) :
    WriteQueue × List (List Nat) × List PendingRequest × Option PendingRequest :=
  let s := q.sendStart req
  if s.2 then
    let f := s.1.sendFinish now req writeErr
    (f.1, [req.request], f.2.1, f.2.2)
  else (s.1, [], [], none)

/-- The throttled anomaly tags `OnSerialData` can record. -/
inductive DropTag where
  | dropState
  | dropNoPending
  | dropUntilTag
  | dropIdMismatch
  | dropUnsent
deriving DecidableEq, Repr

/-- Embeds `WriteQueue.OnSerialData`: either one throttled anomaly is recorded and
the state is untouched, or the bytes join `respBuf` (the flush timer's
bookkeeping carries no claim-relevant state). -/
def WriteQueue.OnSerialData (q : WriteQueue) (now : Int) (data : List Nat) :
    WriteQueue × List DropTag :=
  if q.respState ≠ RespState.waiting then (q, [DropTag.dropState])
  else
    match q.pending with
    | [] => (q, [DropTag.dropNoPending])
    | req :: _ =>
      if req.id ≠ q.currentReqID then
        if now < q.dropUntil then (q, [DropTag.dropUntilTag])
        else (q, [DropTag.dropIdMismatch])
      else if req.sentAt = none then (q, [DropTag.dropUnsent])
      else ({ q with respBuf := q.respBuf ++ data }, [])

/-- Embeds `WriteQueue.flushResponseLocked` (also covering the loop guard in
`flushResponseLoop`, which clears the buffer in exactly the same empty
cases): cache the frame with the adaptive TTL, detach head and waiters,
reset the state machine and report the completions and the next head. -/
def WriteQueue.flushResponseLocked (q : WriteQueue) (now : Int) :
    WriteQueue × List (PendingRequest × List Nat) × Option PendingRequest :=
  match q.pending with
  | [] => ({ q with respBuf := [] }, [], none)
  | req :: rest =>
    match q.respBuf with
    | [] => ({ q with respBuf := [] }, [], none)
    | b :: bs =>
      let buf := b :: bs
      let sendTime := req.sentAt.getD req.timestamp
      let rtt0 := now - sendTime
      let rtt := if rtt0 < 0 then 0 else rtt0
      let t := rtt * 2
      let cacheTTL :=
        if t < second then second
        else if t > 30 * second then 30 * second
        else t
      let waitingList := (mapLookup q.waiting req.dataHash).getD []
      let q' : WriteQueue :=
        { q with
          cache := q.cache.SetWithTTL now req.dataHash buf cacheTTL,
          waiting := mapErase q.waiting req.dataHash,
          clientIndex :=
            waitingList.foldl (fun m w => mapErase m w.clientID)
              (mapErase q.clientIndex req.clientID),
          inflight := q.inflight.filter (fun x => decide (x ≠ req.dataHash)),
          pending := rest,
          currentReqID := 0,
          respState := RespState.idle,
          respBuf := [] }
      (q', (req, buf) :: waitingList.map (fun w => (w, buf)), rest.head?)

/-- The per-request liveness test of the reaper: timeout measured from
`SentAt` when set, else from `Timestamp`. -/
def isLive (now : Int) (r : PendingRequest) : Bool :=
  decide (now - (r.sentAt.getD r.timestamp) < requestTimeout)

/-- Phase 1 of `WriteQueue.CleanupExpired`: walk `pending` in order,
keeping the live requests and collecting each expired main together with
its detached waiter list; the inflight set and the waiter map shrink as the
walk encounters expired mains.  (The loop's deletions from the old
`clientIndex` are dead: the map is rebuilt from the survivors right
after.)  Returns (active, expired, inflight, waiting). -/
def reapPending (now : Int) :
    List PendingRequest → List Nat → List (Nat × List PendingRequest) →
      List PendingRequest × List PendingRequest × List Nat ×
        List (Nat × List PendingRequest)
  | [], infl, wait => ([], [], infl, wait)
  | r :: rs, infl, wait =>
    if isLive now r then
      let rec' := reapPending now rs infl wait
      (r :: rec'.1, rec'.2.1, rec'.2.2.1, rec'.2.2.2)
    else
      let wl := (mapLookup wait r.dataHash).getD []
      let rec' := reapPending now rs (infl.filter (fun x => decide (x ≠ r.dataHash)))
        (mapErase wait r.dataHash)
      (rec'.1, r :: (wl ++ rec'.2.1), rec'.2.2.1, rec'.2.2.2)

/-- Rebuild of `clientIndex` from the surviving queue
(`newIndex[req.ClientID] = position in active`). -/
def buildIndexAux : List PendingRequest → Int → List (String × Int) →
    List (String × Int)
  | [], _, m => m
  | r :: rs, i, m => buildIndexAux rs (i + 1) (mapInsert m r.clientID i)

/-- Phase 2 of `WriteQueue.CleanupExpired`: drop waiters older than the
request timeout (measured from `Timestamp`) from every remaining waiter
list, deleting them from `clientIndex`; empty lists leave the map.
Returns (waiting, expired, clientIndex). -/
def reapWaiting (now : Int) :
    List (Nat × List PendingRequest) → List (String × Int) →
      List (Nat × List PendingRequest) × List PendingRequest ×
        List (String × Int)
  | [], ci => ([], [], ci)
  | (h, wl) :: rest, ci =>
    let activeW := wl.filter (fun w => decide (now - w.timestamp < requestTimeout))
    let expiredW := wl.filter (fun w => decide (¬ now - w.timestamp < requestTimeout))
    let ci' := expiredW.foldl (fun m w => mapErase m w.clientID) ci
    let rec' := reapWaiting now rest ci'
    ((if activeW.isEmpty then [] else [(h, activeW)]) ++ rec'.1,
      expiredW ++ rec'.2.1, rec'.2.2)

/-- Embeds `WriteQueue.CleanupExpired`: sweep the cache, reap timed-out pending
requests and waiters, and when the head itself was reaped reset the state
machine, open the drop window and schedule the surviving head.  Returns
the state, the expired requests (all finished with no response) and the
next head scheduled, if any. -/
def WriteQueue.CleanupExpired (q : WriteQueue) (now : Int) :
    WriteQueue × List PendingRequest × Option PendingRequest :=
  let cache' := q.cache.CleanupExpired now
  let p1 := reapPending now q.pending q.inflight q.waiting
  let active := p1.1
  let expired1 := p1.2.1
  let newIndex := buildIndexAux active 0 []
  let p2 := reapWaiting now p1.2.2.2 newIndex
  let firstWasExpired :=
    match q.pending with
    | [] => false
    | r :: _ => ! isLive now r
  let q' : WriteQueue :=
    { q with
      cache := cache',
      pending := active,
      clientIndex := p2.2.2,
      inflight := p1.2.2.1,
      waiting := p2.1,
      respBuf := if firstWasExpired then [] else q.respBuf,
      currentReqID := if firstWasExpired then 0 else q.currentReqID,
      respState := if firstWasExpired then RespState.idle else q.respState,
      dropUntil := if firstWasExpired then now + dropWindow else q.dropUntil }
  (q', expired1 ++ p2.2.1,
    if firstWasExpired && ! active.isEmpty then active.head? else none)

/-! ### The atomic steps of the engine -/

/-- One atomic engine step: each constructor is one locked section of the
Go code; an execution is an arbitrary interleaving of such steps. -/
inductive Step where
  | send (now : Int) (clientID : String) (data : List Nat)
  | start (req : PendingRequest)
  | finish (now : Int) (req : PendingRequest) (writeErr : Bool)
  | onData (now : Int) (data : List Nat)
  | flush (now : Int)
  | cleanup (now : Int)

/-- The state transformation of one step. -/
def Step.apply : Step → WriteQueue → WriteQueue
  | .send now c d, q => (q.Send now c d).1
  | .start req, q => (q.sendStart req).1
  | .finish now req err, q => (q.sendFinish now req err).1
  | .onData now d, q => (q.OnSerialData now d).1
  | .flush now, q => (q.flushResponseLocked now).1
  | .cleanup now, q => (q.CleanupExpired now).1

/-- The state-machine coherence invariant of §8.2: in `waiting` the head
exists, was sent, and owns `currentReqID`; in `idle` no request owns it. -/
def Coherent (q : WriteQueue) : Prop :=
  (q.respState = RespState.waiting →
    ∃ r l, q.pending = r :: l ∧ r.sentAt ≠ none ∧ r.id = q.currentReqID) ∧
  (q.respState = RespState.idle → q.currentReqID = 0)

/-! ### Concrete states used by the witnesses and counterexamples -/

/-- A queue whose cache holds a live entry for payload `[1]`. -/
def qCacheHit : WriteQueue :=
  { NewWriteQueue with cache := [(hashData [1], ⟨[9], 10⟩)] }

/-- An idle queue inside an open drop window. -/
def qDropIdle : WriteQueue := { NewWriteQueue with dropUntil := 100 }

/-- An inflight main for payload `[7]`, not yet written. -/
def reqMain : PendingRequest := ⟨1, "a", hashData [7], [7], 0, none⟩

/-- The same main after a successful link write at t = 100. -/
def reqMainSent : PendingRequest := ⟨1, "a", hashData [7], [7], 0, some 100⟩

/-- A waiter attached to the `[7]` fingerprint. -/
def reqWaiter : PendingRequest := ⟨0, "b", hashData [7], [7], 1, none⟩

/-- A queue with `reqMain` inflight at the head. -/
def qDedup : WriteQueue :=
  { NewWriteQueue with
    pending := [reqMain], inflight := [hashData [7]],
    nextReqID := 1, clientIndex := [("a", 0)] }

/-- A waiting queue with an accumulated frame and one waiter, ready to
flush. -/
def qFlush : WriteQueue :=
  { qDedup with
    pending := [reqMainSent], respBuf := [170, 187],
    currentReqID := 1, respState := RespState.waiting,
    waiting := [(hashData [7], [reqWaiter])] }

/-- A sending queue with one waiter, about to see its write fail. -/
def qFail : WriteQueue :=
  { qDedup with
    respState := RespState.sending,
    waiting := [(hashData [7], [reqWaiter])],
    clientIndex := [("b", -1), ("a", 0)] }

/-! ### Helper lemmas -/

theorem runFinishers_of_done (evs : List FinishEvent) (s : Sink)
    (h : s.done = true) : runFinishers s evs = s := by
  induction evs generalizing s with
  | nil => rfl
  | cons e rest ih =>
    have happ : applyFinish s e = s := by
      cases e <;> simp [applyFinish, h]
    show List.foldl applyFinish (applyFinish s e) rest = s
    rw [happ]
    exact ih s h

theorem mapLookup_filter_ne (l : List Nat) (a : Nat) :
    a ∉ l.filter (fun x => decide (x ≠ a)) := by
  simp [List.mem_filter]

theorem mapLookup_foldl_erase {α K V : Type} [DecidableEq K] (f : α → K)
    (l : List α) (m : List (K × V)) (k : K)
    (h : mapLookup m k = none ∨ ∃ a ∈ l, f a = k) :
    mapLookup (l.foldl (fun m a => mapErase m (f a)) m) k = none := by
  induction l generalizing m with
  | nil =>
    rcases h with h | ⟨a, ha, _⟩
    · exact h
    · cases ha
  | cons a as ih =>
    show mapLookup (as.foldl (fun m a => mapErase m (f a)) (mapErase m (f a))) k = none
    apply ih
    by_cases hk : f a = k
    · left
      rw [← hk]
      exact mapLookup_erase m (f a)
    · rcases h with h | ⟨a', ha', hkk⟩
      · exact Or.inl (mapLookup_erase_none m k (f a) h)
      · rcases List.mem_cons.mp ha' with rfl | hmem
        · exact absurd hkk hk
        · exact Or.inr ⟨a', hmem, hkk⟩

theorem head?_filter {α : Type} (p : α → Bool) (l : List α) :
    (l.filter p).head? = l.find? p := by
  induction l with
  | nil => rfl
  | cons a l ih =>
    by_cases h : p a
    · simp [List.filter_cons, List.find?_cons, h]
    · simp [List.filter_cons, List.find?_cons, h, ih]

theorem reapPending_active (now : Int) (l : List PendingRequest)
    (infl : List Nat) (wait : List (Nat × List PendingRequest)) :
    (reapPending now l infl wait).1 = l.filter (isLive now) := by
  induction l generalizing infl wait with
  | nil => rfl
  | cons r rs ih =>
    by_cases h : isLive now r
    · simp [reapPending, h, List.filter_cons, ih]
    · simp [reapPending, h, List.filter_cons, ih]

theorem cleanup_pending (q : WriteQueue) (now : Int) :
    (q.CleanupExpired now).1.pending = q.pending.filter (isLive now) := by
  simpa [WriteQueue.CleanupExpired] using
    reapPending_active now q.pending q.inflight q.waiting

/-- The head-was-expired flag of `WriteQueue.CleanupExpired`. -/
def firstExpired (q : WriteQueue) (now : Int) : Bool :=
  match q.pending with
  | [] => false
  | r :: _ => ! isLive now r

theorem cleanup_respState (q : WriteQueue) (now : Int) :
    (q.CleanupExpired now).1.respState =
      if firstExpired q now then RespState.idle else q.respState := rfl

theorem cleanup_currentReqID (q : WriteQueue) (now : Int) :
    (q.CleanupExpired now).1.currentReqID =
      if firstExpired q now then 0 else q.currentReqID := rfl

/-! ### Claim theorems -/

/-- Claim C1: a completion sink is at-most-once.  Whatever interleaving of
`finishWithResponse` / `finishNoResponse` invocations hits a request's
sink, the first invocation's outcome is the one delivered, exactly once,
and every later invocation of either finisher is a no-op. -/
theorem c1_at_most_once_completion (e : FinishEvent) (evs : List FinishEvent) :
    (runFinishers Sink.fresh (e :: evs)).delivered = [e.outcome] ∧
    (runFinishers Sink.fresh (e :: evs)).done = true := by
  have h1 : applyFinish Sink.fresh e = ⟨true, [e.outcome]⟩ := by
    cases e <;> simp [applyFinish, Sink.fresh, FinishEvent.outcome]
  have h2 : runFinishers Sink.fresh (e :: evs)
      = runFinishers ⟨true, [e.outcome]⟩ evs := by
    show List.foldl applyFinish (applyFinish Sink.fresh e) evs = _
    rw [h1]
    rfl
  rw [h2, runFinishers_of_done evs ⟨true, [e.outcome]⟩ rfl]
  exact ⟨rfl, rfl⟩

/-- Claim C5: a `Send` that hits a live cache entry returns the cached
bytes already resolved, performs no serial write, schedules nothing, and
leaves the whole engine state — queue, inflight index, waiter map, client
index, `currentReqID`, `respState` — unchanged. -/
theorem c5_cache_hit_send (q : WriteQueue) (now : Int) (c : String)
    (p respBytes : List Nat)
    (h : q.cache.Get now (hashData p) = some respBytes) :
    q.Send now c p = (q, SendResult.resolved respBytes, false) := by
  unfold WriteQueue.Send
  simp [h]

/-- Witness for C5 at a concrete queue with a live cache entry. -/
theorem c5_cache_hit_send_witness :
    qCacheHit.Send 0 "c3" [1] = (qCacheHit, SendResult.resolved [9], false) :=
  c5_cache_hit_send qCacheHit 0 "c3" [1] [9] (by decide)

/-- Claim C9 counterexample: the sweep keeps an entry whose expiry equals
`now`, while the claim says every entry with expiry ≤ now is removed. -/
theorem c9_counterexample :
    (1, cacheEntry.mk [2] 5) ∈ RequestCache.CleanupExpired [(1, ⟨[2], 5⟩)] 5 ∧
    (5 : Int) ≤ 5 := by
  decide

/-- Claim C9 as amended: the sweep removes exactly the entries whose
expiry is strictly before `now`; every entry with `expireAt ≥ now` is
retained unchanged. -/
theorem c9_sweep_exact (c : RequestCache) (now : Int) (k : Nat)
    (e : cacheEntry) :
    (k, e) ∈ c.CleanupExpired now ↔ (k, e) ∈ c ∧ now ≤ e.expireAt := by
  simp [RequestCache.CleanupExpired, List.mem_filter, Int.not_lt]

/-- Claim C10: the reaper keeps the surviving queued requests in their
original relative order — the new queue is the old queue filtered by
liveness, and the new head is the first surviving request. -/
theorem c10_reaper_preserves_order (q : WriteQueue) (now : Int) :
    (q.CleanupExpired now).1.pending = q.pending.filter (isLive now) ∧
    (q.CleanupExpired now).1.pending.head? = q.pending.find? (isLive now) := by
  refine ⟨cleanup_pending q now, ?_⟩
  rw [cleanup_pending q now]
  exact head?_filter (isLive now) q.pending

/-- Claim C4 counterexample: inside the drop window, bytes arriving with
the engine idle are dropped but DO record a throttled anomaly event
(`drop_state`), so the drop is not silent. -/
theorem c4_counterexample :
    (50 : Int) < qDropIdle.dropUntil ∧
    qDropIdle.respState = RespState.idle ∧
    (qDropIdle.OnSerialData 50 [1]).2 = [DropTag.dropState] := by
  decide

/-- Claim C4 as amended: inside the drop window, device bytes that do not
belong to the current head (engine idle, empty queue, head unsent, or
head-id mismatch) are discarded — the engine state, and in particular the
response buffer, is unchanged and no completion fires — but each such
drop records exactly one throttled anomaly event rather than being
silent; only the head-id-mismatch path consults `drop_until` at all. -/
theorem c4_drop_records_anomaly (q : WriteQueue) (now : Int)
    (data : List Nat) (hwin : now < q.dropUntil)
    (hcond : q.respState = RespState.idle ∨ q.pending = [] ∨
      ∃ r l, q.pending = r :: l ∧
        (r.sentAt = none ∨ r.id ≠ q.currentReqID)) :
    (q.OnSerialData now data).1 = q ∧
    (q.OnSerialData now data).2.length = 1 := by
  unfold WriteQueue.OnSerialData
  by_cases hs : q.respState = RespState.waiting
  · simp only [hs, ne_eq, not_true_eq_false, if_false]
    rcases hcond with hidle | hnil | ⟨r, l, hp, hor⟩
    · rw [hs] at hidle
      exact absurd hidle (by simp)
    · simp [hnil]
    · rw [hp]
      rcases hor with hun | hmis
      · by_cases hid : r.id = q.currentReqID
        · simp [hid, hun]
        · simp [hid, hwin]
      · simp [hmis, hwin]
  · simp [hs]

/-- Witness for the amended C4 at a concrete idle queue in the window. -/
theorem c4_drop_records_anomaly_witness :
    (qDropIdle.OnSerialData 50 [1]).1 = qDropIdle ∧
    (qDropIdle.OnSerialData 50 [1]).2.length = 1 :=
  c4_drop_records_anomaly qDropIdle 50 [1] (by decide) (Or.inl rfl)

/-- Claim C6: on a link write failure the head and its whole waiter set
leave the queue, the inflight index, the waiter map and the client index;
the state machine resets to idle with `currentReqID = 0`; the drop window
opens for 150 ms; the failed main and all its waiters are finished with
the no-response outcome; and the next head, if any, is scheduled. -/
theorem c6_write_failure (q : WriteQueue) (now : Int) (req : PendingRequest)
    (rest : List PendingRequest) (hp : q.pending = req :: rest) :
    (q.sendFinish now req true).1.pending = rest ∧
    req.dataHash ∉ (q.sendFinish now req true).1.inflight ∧
    mapLookup (q.sendFinish now req true).1.waiting req.dataHash = none ∧
    mapLookup (q.sendFinish now req true).1.clientIndex req.clientID
      = none ∧
    (∀ w ∈ (mapLookup q.waiting req.dataHash).getD [],
      mapLookup (q.sendFinish now req true).1.clientIndex w.clientID
        = none) ∧
    (q.sendFinish now req true).1.respState = RespState.idle ∧
    (q.sendFinish now req true).1.currentReqID = 0 ∧
    (q.sendFinish now req true).1.dropUntil = now + dropWindow ∧
    (q.sendFinish now req true).2.1
      = req :: (mapLookup q.waiting req.dataHash).getD [] ∧
    (q.sendFinish now req true).2.2 = rest.head? := by
  simp only [WriteQueue.sendFinish, hp, if_pos rfl, if_true]
  refine ⟨trivial, mapLookup_filter_ne q.inflight req.dataHash,
    mapLookup_erase q.waiting req.dataHash, ?_, ?_, trivial, trivial,
    trivial, trivial, trivial⟩
  · exact mapLookup_foldl_erase PendingRequest.clientID _ _ _
      (Or.inl (mapLookup_erase q.clientIndex req.clientID))
  · intro w hw
    exact mapLookup_foldl_erase PendingRequest.clientID _ _ _
      (Or.inr ⟨w, hw, rfl⟩)

/-- Witness for C6 at a concrete failing head with one waiter. -/
theorem c6_write_failure_witness :
    (qFail.sendFinish 7 reqMain true).1.pending = [] ∧
    reqMain.dataHash ∉ (qFail.sendFinish 7 reqMain true).1.inflight ∧
    mapLookup (qFail.sendFinish 7 reqMain true).1.waiting reqMain.dataHash
      = none ∧
    mapLookup (qFail.sendFinish 7 reqMain true).1.clientIndex
      reqMain.clientID = none ∧
    (∀ w ∈ (mapLookup qFail.waiting reqMain.dataHash).getD [],
      mapLookup (qFail.sendFinish 7 reqMain true).1.clientIndex w.clientID
        = none) ∧
    (qFail.sendFinish 7 reqMain true).1.respState = RespState.idle ∧
    (qFail.sendFinish 7 reqMain true).1.currentReqID = 0 ∧
    (qFail.sendFinish 7 reqMain true).1.dropUntil = 7 + dropWindow ∧
    (qFail.sendFinish 7 reqMain true).2.1
      = reqMain :: (mapLookup qFail.waiting reqMain.dataHash).getD [] ∧
    (qFail.sendFinish 7 reqMain true).2.2 = List.head? [] :=
  c6_write_failure qFail 7 reqMain [] rfl

/-- Claim C7: on frame completion the cached entry for the head's
fingerprint carries the flushed bytes with expiry `now + TTL` where
`TTL = clamp(2 * max(0, now - sent_at), 1s, 30s)`. -/
theorem c7_adaptive_ttl (q : WriteQueue) (now s : Int)
    (req : PendingRequest) (rest : List PendingRequest) (b : Nat)
    (bs : List Nat) (hp : q.pending = req :: rest)
    (hs : req.sentAt = some s) (hb : q.respBuf = b :: bs) :
    mapLookup (q.flushResponseLocked now).1.cache req.dataHash
      = some ⟨b :: bs,
          now + max second (min (30 * second) (2 * max 0 (now - s)))⟩ := by
  simp only [WriteQueue.flushResponseLocked, hp, hb, hs, Option.getD_some,
    RequestCache.SetWithTTL, mapLookup_insert, Option.some.injEq,
    cacheEntry.mk.injEq, true_and]
  simp only [second, max_def, min_def]
  split_ifs <;> omega

/-- Witness for C7 at a concrete flush 100 ns after the send. -/
theorem c7_adaptive_ttl_witness :
    mapLookup (qFlush.flushResponseLocked 200).1.cache reqMainSent.dataHash
      = some ⟨[170, 187],
          200 + max second (min (30 * second) (2 * max 0 (200 - 100)))⟩ :=
  c7_adaptive_ttl qFlush 200 100 reqMainSent [] 170 [187] rfl rfl rfl

/-- Claim C8: the fingerprint is the 64-bit FNV-1a hash of the raw payload
(offset basis 14695981039346656037, prime 1099511628211, XOR then multiply
per byte, mod 2^64), equal byte sequences hash equally, and `Send` keys
its cache lookup and dedup decision purely on that hash: payloads with
equal hashes take the same intake branch and resolve to the same cached
bytes. -/
theorem c8_fingerprint :
    hashData [] = 14695981039346656037 ∧
    (∀ (l : List Nat) (b : Nat),
      hashData (l ++ [b]) = (hashData l ^^^ b) * 1099511628211 % 2 ^ 64) ∧
    (∀ d₁ d₂ : List Nat, d₁ = d₂ → hashData d₁ = hashData d₂) ∧
    (∀ (q : WriteQueue) (now : Int) (c₁ c₂ : String) (d₁ d₂ : List Nat),
      hashData d₁ = hashData d₂ →
      ((q.Send now c₁ d₁).2.1).kind = ((q.Send now c₂ d₂).2.1).kind ∧
      ((q.Send now c₁ d₁).2.1).resolvedBytes
        = ((q.Send now c₂ d₂).2.1).resolvedBytes) := by
  refine ⟨rfl, ?_, ?_, ?_⟩
  · intro l b
    simp [hashData, List.foldl_append, hashByte, prime64]
  · intro d₁ d₂ h
    rw [h]
  · intro q now c₁ c₂ d₁ d₂ h
    unfold WriteQueue.Send
    rw [h]
    cases hg : q.cache.Get now (hashData d₂) with
    | some cached => simp [hg]
    | none =>
      by_cases hin : hashData d₂ ∈ q.inflight <;>
        simp [hg, hin, SendResult.kind, SendResult.resolvedBytes]

/-- Witness for C8: equal payloads hash equally and drive `Send` into the
same intake branch. -/
theorem c8_fingerprint_witness :
    hashData [3] = hashData [3] ∧
    ((NewWriteQueue.Send 0 "a" [3]).2.1).kind
      = ((NewWriteQueue.Send 0 "b" [3]).2.1).kind :=
  ⟨c8_fingerprint.2.2.1 [3] [3] rfl,
    (c8_fingerprint.2.2.2 NewWriteQueue 0 "a" "b" [3] [3] rfl).1⟩

/-- Claim C3: while an inflight main for `hash(p)` exists and no live
cache entry covers `p`, a second submission is attached to the waiter
list (the queue is untouched, nothing is scheduled, hence no second
write); a dispatch writes the link at most once, exactly the payload when
it proceeds; and on frame completion the main and every waiter receive
the identical response byte sequence. -/
theorem c3_dedup_single_write :
    (∀ (q : WriteQueue) (now : Int) (c : String) (p : List Nat),
      q.cache.Get now (hashData p) = none →
      hashData p ∈ q.inflight →
      (q.Send now c p).1.pending = q.pending ∧
      (q.Send now c p).2.1 = SendResult.attached ∧
      (q.Send now c p).2.2 = false ∧
      mapLookup (q.Send now c p).1.waiting (hashData p)
        = some ((mapLookup q.waiting (hashData p)).getD []
            ++ [⟨0, c, hashData p, p, now, none⟩])) ∧
    (∀ (q : WriteQueue) (now : Int) (req : PendingRequest) (err : Bool),
      (q.sendToSerial now req err).2.1 = [] ∨
      (q.sendToSerial now req err).2.1 = [req.request]) ∧
    (∀ (q : WriteQueue) (now : Int) (pr : PendingRequest × List Nat),
      pr ∈ (q.flushResponseLocked now).2.1 → pr.2 = q.respBuf) ∧
    (∀ (q : WriteQueue) (now : Int) (req : PendingRequest)
      (rest : List PendingRequest) (b : Nat) (bs : List Nat),
      q.pending = req :: rest → q.respBuf = b :: bs →
      ((q.flushResponseLocked now).2.1).map Prod.fst
        = req :: (mapLookup q.waiting req.dataHash).getD []) := by
  refine ⟨?_, ?_, ?_, ?_⟩
  · intro q now c p hg hin
    unfold WriteQueue.Send
    simp [hg, hin, mapLookup_insert]
  · intro q now req err
    unfold WriteQueue.sendToSerial
    cases hs : (q.sendStart req).2 <;> simp [hs]
  · intro q now pr hpr
    revert hpr
    unfold WriteQueue.flushResponseLocked
    cases hp : q.pending with
    | nil => simp
    | cons req rest =>
      cases hb : q.respBuf with
      | nil => simp
      | cons b bs =>
        intro hpr
        rcases List.mem_cons.mp hpr with rfl | hmem
        · rfl
        · rcases List.mem_map.mp hmem with ⟨w, _, hw⟩
          rw [← hw]
  · intro q now req rest b bs hp hb
    simp only [WriteQueue.flushResponseLocked, hp, hb, List.map_cons,
      List.map_map, List.cons.injEq, true_and]
    have hid : (Prod.fst ∘ fun w : PendingRequest => (w, b :: bs)) = id := rfl
    rw [hid, List.map_id]

theorem coherent_of_fields (q q' : WriteQueue)
    (h1 : q'.pending = q.pending) (h2 : q'.respState = q.respState)
    (h3 : q'.currentReqID = q.currentReqID) (h : Coherent q) :
    Coherent q' := by
  obtain ⟨hw, hi⟩ := h
  constructor
  · intro hww
    rw [h2] at hww
    obtain ⟨r, l, hp, hs, hid⟩ := hw hww
    exact ⟨r, l, by rw [h1, hp], hs, by rw [h3]; exact hid⟩
  · intro hii
    rw [h2] at hii
    rw [h3]
    exact hi hii

theorem onData_fields (q : WriteQueue) (now : Int) (d : List Nat) :
    (q.OnSerialData now d).1.pending = q.pending ∧
    (q.OnSerialData now d).1.respState = q.respState ∧
    (q.OnSerialData now d).1.currentReqID = q.currentReqID := by
  unfold WriteQueue.OnSerialData
  repeat' split
  all_goals exact ⟨rfl, rfl, rfl⟩

theorem coherent_send (q : WriteQueue) (now : Int) (c : String)
    (d : List Nat) (h : Coherent q) : Coherent (q.Send now c d).1 := by
  obtain ⟨hw, hi⟩ := h
  simp only [WriteQueue.Send]
  cases hg : q.cache.Get now (hashData d) with
  | some cached => exact ⟨hw, hi⟩
  | none =>
    by_cases hin : hashData d ∈ q.inflight
    · rw [if_pos hin]
      exact ⟨hw, hi⟩
    · rw [if_neg hin]
      constructor
      · intro hww
        obtain ⟨r, l, hp, hs, hid⟩ := hw hww
        refine ⟨r, l ++ [⟨q.nextReqID + 1, c, hashData d, d, now, none⟩],
          ?_, hs, hid⟩
        rw [hp]
        rfl
      · exact hi

theorem coherent_start (q : WriteQueue) (req : PendingRequest)
    (h : Coherent q) : Coherent (q.sendStart req).1 := by
  obtain ⟨hw, hi⟩ := h
  unfold WriteQueue.sendStart
  cases hp : q.pending with
  | nil => exact ⟨hw, hi⟩
  | cons hd tl =>
    dsimp only
    by_cases he : hd = req
    · rw [if_pos he]
      by_cases hst : q.respState = RespState.idle
      · rw [if_pos hst]
        exact ⟨(fun hww => nomatch hww), (fun hii => nomatch hii)⟩
      · rw [if_neg hst]
        exact ⟨hw, hi⟩
    · rw [if_neg he]
      exact ⟨hw, hi⟩

theorem coherent_finish (q : WriteQueue) (now : Int) (req : PendingRequest)
    (err : Bool) (h : Coherent q) : Coherent (q.sendFinish now req err).1 := by
  obtain ⟨hw, hi⟩ := h
  unfold WriteQueue.sendFinish
  cases hp : q.pending with
  | nil => exact ⟨hw, hi⟩
  | cons hd tl =>
    dsimp only
    by_cases he : hd = req
    · rw [if_pos he]
      cases err with
      | true => exact ⟨(fun hww => nomatch hww), (fun _ => rfl)⟩
      | false =>
        refine ⟨fun _ => ⟨{ hd with sentAt := some now }, tl, rfl,
          by simp, ?_⟩, (fun hii => nomatch hii)⟩
        show hd.id = req.id
        rw [he]
    · rw [if_neg he]
      exact ⟨hw, hi⟩

theorem coherent_onData (q : WriteQueue) (now : Int) (d : List Nat)
    (h : Coherent q) : Coherent (q.OnSerialData now d).1 := by
  obtain ⟨h1, h2, h3⟩ := onData_fields q now d
  exact coherent_of_fields q _ h1 h2 h3 h

theorem coherent_flush (q : WriteQueue) (now : Int) (h : Coherent q) :
    Coherent (q.flushResponseLocked now).1 := by
  unfold WriteQueue.flushResponseLocked
  cases hp : q.pending with
  | nil => exact coherent_of_fields q _ (by rw [hp]) rfl rfl h
  | cons r tl =>
    cases hb : q.respBuf with
    | nil => exact coherent_of_fields q _ (by rw [hp]) rfl rfl h
    | cons b bs => exact ⟨(fun hww => nomatch hww), (fun _ => rfl)⟩

theorem coherent_cleanup (q : WriteQueue) (now : Int) (h : Coherent q) :
    Coherent (q.CleanupExpired now).1 := by
  obtain ⟨hw, hi⟩ := h
  cases hf : firstExpired q now with
  | true =>
    constructor
    · intro hww
      rw [cleanup_respState, hf] at hww
      simp at hww
    · intro _
      rw [cleanup_currentReqID, hf]
      simp
  | false =>
    constructor
    · intro hww
      rw [cleanup_respState, hf] at hww
      simp only [Bool.false_eq_true, if_false] at hww
      obtain ⟨r, l, hp, hs, hid⟩ := hw hww
      have hlive : isLive now r = true := by
        have hf2 := hf
        unfold firstExpired at hf2
        rw [hp] at hf2
        simpa using hf2
      refine ⟨r, l.filter (isLive now), ?_, hs, ?_⟩
      · rw [cleanup_pending, hp, List.filter_cons, if_pos hlive]
      · rw [cleanup_currentReqID, hf]
        simpa using hid
    · intro hii
      rw [cleanup_respState, hf] at hii
      simp only [Bool.false_eq_true, if_false] at hii
      rw [cleanup_currentReqID, hf]
      simpa using hi hii

/-- Claim C2: the state-machine coherence invariant — `waiting` implies a
non-empty queue whose head has `sent_at` set and `head.id = currentReqID`,
and `idle` implies `currentReqID = 0` — is preserved by every atomic
engine step (`Send`, both halves of `sendToSerial`, `OnSerialData`, the
response flush, and `CleanupExpired`). -/
theorem c2_state_coherence (s : Step) (q : WriteQueue) (h : Coherent q) :
    Coherent (s.apply q) := by
  cases s with
  | send now c d => exact coherent_send q now c d h
  | start req => exact coherent_start q req h
  | finish now req err => exact coherent_finish q now req err h
  | onData now d => exact coherent_onData q now d h
  | flush now => exact coherent_flush q now h
  | cleanup now => exact coherent_cleanup q now h

/-- Witness for C2 at a concrete coherent state and step. -/
theorem c2_state_coherence_witness :
    Coherent ((Step.send 0 "c1" [1]).apply NewWriteQueue) :=
  c2_state_coherence (Step.send 0 "c1" [1]) NewWriteQueue
    ⟨(fun hww => nomatch hww), (fun _ => rfl)⟩

/-- Witness for C3: a concrete dedup attach next to an inflight main, and
a concrete flush delivering the same frame to main and waiter. -/
theorem c3_dedup_single_write_witness :
    ((qDedup.Send 1 "b" [7]).1.pending = qDedup.pending ∧
      (qDedup.Send 1 "b" [7]).2.1 = SendResult.attached ∧
      (qDedup.Send 1 "b" [7]).2.2 = false ∧
      mapLookup (qDedup.Send 1 "b" [7]).1.waiting (hashData [7])
        = some ((mapLookup qDedup.waiting (hashData [7])).getD []
            ++ [⟨0, "b", hashData [7], [7], 1, none⟩])) ∧
    ((reqMainSent, [170, 187]) ∈ (qFlush.flushResponseLocked 200).2.1 →
      ([170, 187] : List Nat) = qFlush.respBuf) :=
  ⟨c3_dedup_single_write.1 qDedup 1 "b" [7] (by decide) (by decide),
    fun h => c3_dedup_single_write.2.2.1 qFlush 200 (reqMainSent, [170, 187]) h⟩

end SerialServer
